import Mathlib

/-!
Verification of the baseball scorecard core model.

The definitions below are shallow embeddings of the TypeScript source
(`src/unnamed/part_001`): pitch marks, plate-appearance outcomes,
baserunner path segments, cells, the count engine, the cell-level
reducers (outcome selection, run-segment addition, the pitch-sequence
handler), the inning/out tracker, the statistics aggregator, and the
storage normalizers.  Theorems settle the frozen claims about this code.
-/

namespace Scorecard

/-! ## Definitions: shallow embedding of the source -/

/-- PitchMark: 'B' | 'CS' | 'SS' | 'F' | 'D'. -/
inductive PitchMark where
  | B | CS | SS | F | D
  deriving DecidableEq, Repr

/-- Outcome: '—' | 'In Play' | 'Walk' | 'HBP' | 'K' | '1B' | '2B' | '3B' | 'HR' | 'Out'. -/
inductive Outcome where
  | dash | inPlay | walk | hbp | k | oneB | twoB | threeB | hr | outO
  deriving DecidableEq, Repr

/-- RunKind: 'hit' | 'advance' | 'error' | 'award'. -/
inductive RunKind where
  | hit | advance | error | award
  deriving DecidableEq, Repr

/-- award?: 'Walk' | 'HBP'. -/
inductive AwardType where
  | walkA | hbpA
  deriving DecidableEq, Repr

/-- pathColor: 'black' | 'red'. -/
inductive PathColor where
  | black | red
  deriving DecidableEq, Repr

/-- RunSeg: `{from, to, kind, byBatter?, note?, award?}` (the unused `paIndex?` is omitted;
`from` is a Lean keyword, so the two base fields are named `fromB`/`toB`). -/
structure RunSeg where
  fromB : Nat
  toB : Nat
  kind : RunKind
  byBatter : Option Nat := none
  note : Option String := none
  award : Option AwardType := none
  deriving DecidableEq, Repr

/-- Cell (all fields present, as produced by `makeEmptyRow`/`normalizeCell`). -/
structure Cell where
  pitchSeq : List PitchMark := []
  outcome : Outcome := Outcome.dash
  bases : Nat := 0
  outs : Nat := 0
  pathColor : PathColor := PathColor.black
  notes : String := ""
  runs : List RunSeg := []
  deriving DecidableEq, Repr

/-- The empty cell produced by `makeEmptyRow`. -/
def emptyCell : Cell := {}

instance : Inhabited Cell := ⟨emptyCell⟩

/-- One loop iteration of `countStrikes`: CS/SS increment; F increments only below 2. -/
def strikeStep (s : Nat) (m : PitchMark) : Nat :=
  if m = PitchMark.CS ∨ m = PitchMark.SS then s + 1
  else if m = PitchMark.F then (if s < 2 then s + 1 else s)
  else s

/-- `countStrikes` loop with explicit accumulator; `if (s >= 3) return 3` is the early return. -/
def countStrikesAux : Nat → List PitchMark → Nat
  | s, [] => s
  | s, m :: rest =>
    if 3 ≤ strikeStep s m then 3 else countStrikesAux (strikeStep s m) rest

/-- `countStrikes(seq)` from the source. -/
def countStrikes (seq : List PitchMark) : Nat := countStrikesAux 0 seq

/-- `countBalls(seq)`: only 'B' counts. -/
def countBalls (seq : List PitchMark) : Nat :=
  (seq.filter (fun m => m = PitchMark.B)).length

/-- `hasDeadBall(seq)`: any 'D' present. -/
def hasDeadBall (seq : List PitchMark) : Bool :=
  seq.contains PitchMark.D

/-- `hitOutcomeFrom(to)`: 1→'1B', 2→'2B', 3→'3B', else 'HR'. -/
def hitOutcomeFrom (toB : Nat) : Outcome :=
  if toB = 1 then Outcome.oneB
  else if toB = 2 then Outcome.twoB
  else if toB = 3 then Outcome.threeB
  else Outcome.hr

/-- The outcome an award segment reads back as (`first.award ?? 'Walk'`). -/
def awardOutcome : Option AwardType → Outcome
  | some AwardType.walkA => Outcome.walk
  | some AwardType.hbpA => Outcome.hbp
  | none => Outcome.walk

/-- `firstRunForOutcome(o, by)`: hit outcomes give a `0→N` hit segment, Walk/HBP give a
`0→1` award segment tagged with the batter, anything else gives the empty list. -/
def firstRunForOutcome (o : Outcome) (byN : Nat) : List RunSeg :=
  match o with
  | Outcome.oneB => [⟨0, 1, RunKind.hit, some byN, none, none⟩]
  | Outcome.twoB => [⟨0, 2, RunKind.hit, some byN, none, none⟩]
  | Outcome.threeB => [⟨0, 3, RunKind.hit, some byN, none, none⟩]
  | Outcome.hr => [⟨0, 4, RunKind.hit, some byN, none, none⟩]
  | Outcome.walk => [⟨0, 1, RunKind.award, some byN, none, some AwardType.walkA⟩]
  | Outcome.hbp => [⟨0, 1, RunKind.award, some byN, none, some AwardType.hbpA⟩]
  | _ => []

/-- `maybeSyncOutcomeFromRuns(runs, prevOutcome)`. -/
def maybeSyncOutcomeFromRuns (runs : List RunSeg) (prevOutcome : Outcome) : Outcome :=
  match runs with
  | first :: _ =>
    if first.fromB = 0 then
      if first.kind = RunKind.hit then hitOutcomeFrom first.toB
      else if first.kind = RunKind.award then awardOutcome first.award
      else prevOutcome
    else prevOutcome
  | [] => prevOutcome

/-- `onOutcomeChange(o)`: replace the leading (`from = 0`) segments with the opening
for `o`, keep the `from > 0` segments, and set `bases` to the opening's `to`
(or keep the old `bases` when the opening is empty). -/
def onOutcomeChange (cell : Cell) (o : Outcome) (batterNumber : Nat) : Cell :=
  let later := cell.runs.filter (fun seg => decide (0 < seg.fromB))
  let opening := firstRunForOutcome o batterNumber
  let nextRuns := opening ++ later
  let newBases := match opening with
    | op :: _ => op.toB
    | [] => cell.bases
  { cell with outcome := o, runs := nextRuns, bases := newBases }

/-- `onResetRuns` (right-click on the diamond): clear the path, bases and outcome. -/
def resetRuns (cell : Cell) : Cell :=
  { cell with runs := [], bases := 0, outcome := Outcome.dash }

/-- The `lastClickRef` contents: time of last diamond click and its kind. -/
structure ClickState where
  t : Nat
  kind : RunKind
  deriving DecidableEq, Repr

/-- The optional `{byBatter?, note?}` meta passed from the diamond. -/
structure RunMeta where
  byBatter : Option Nat := none
  note : Option String := none
  deriving DecidableEq, Repr

/-- The `to` of the last existing segment (0 for an empty path); `addRunSegment`'s `lastTo`. -/
def lastTo (runs : List RunSeg) : Nat :=
  match runs.getLast? with
  | some l => l.toB
  | none => 0

/-- The "quick extend same-kind clicks" branch of `addRunSegment`: within 350ms,
same kind, non-empty path whose last segment ends at `from` and below 4,
the last segment's `to` is bumped by one (min 4) instead of appending. -/
def tryExtendRun (cell : Cell) (kind : RunKind) (lastClick : Option ClickState)
    (now fromB : Nat) : Option Cell :=
  match lastClick, cell.runs.getLast? with
  | some lc, some last =>
    if lc.kind = kind ∧ now - lc.t < 350 ∧ last.toB = fromB ∧ last.toB < 4 then
      let extended := { last with toB := min 4 (last.toB + 1) }
      let nextRuns := cell.runs.dropLast ++ [extended]
      let nextOutcome := maybeSyncOutcomeFromRuns nextRuns cell.outcome
      some { cell with runs := nextRuns, bases := extended.toB, outcome := nextOutcome }
    else none
  | _, _ => none

/-- `addRunSegment(kind, meta)` with the `lastClickRef` state and clock made explicit.
Returns the next cell together with the new `lastClickRef` value. -/
def addRunSegment (cell : Cell) (kind : RunKind) (meta : RunMeta)
    (lastClick : Option ClickState) (now : Nat) : Cell × ClickState :=
  let runs := cell.runs
  let fromB := if lastTo runs ≤ 3 then lastTo runs else 3
  match tryExtendRun cell kind lastClick now fromB with
  | some c' => (c', ⟨now, kind⟩)
  | none =>
    let toB := min 4 (fromB + 1)
    let awardType : Option AwardType :=
      if kind = RunKind.award then
        (if meta.note = some "HBP" then some AwardType.hbpA else some AwardType.walkA)
      else none
    let seg : RunSeg :=
      if kind = RunKind.award then ⟨fromB, toB, kind, meta.byBatter, meta.note, awardType⟩
      else ⟨fromB, toB, kind, meta.byBatter, meta.note, none⟩
    let nextRuns := runs ++ [seg]
    let nextOutcome :=
      if kind = RunKind.hit then hitOutcomeFrom toB
      else if kind = RunKind.award then awardOutcome awardType
      else maybeSyncOutcomeFromRuns nextRuns cell.outcome
    ({ cell with runs := nextRuns, bases := toB, outcome := nextOutcome }, ⟨now, kind⟩)

/-- The `nextOutcome` chain of the handler: each branch couples its trigger with the
check that the current outcome differs. -/
def nextOutcomeOf (cur : Outcome) (seq : List PitchMark) : Option Outcome :=
  if 3 ≤ countStrikes seq ∧ cur ≠ Outcome.k then some Outcome.k
  else if hasDeadBall seq = true ∧ cur ≠ Outcome.hbp then some Outcome.hbp
  else if 4 ≤ countBalls seq ∧ cur ≠ Outcome.walk then some Outcome.walk
  else none

/-- The handler body: build the single update object and report whether
`onNextOut` is invoked afterwards (`nextOutcome === 'K'`). -/
def pitchOnChange (cell : Cell) (batterNumber : Nat) (seq : List PitchMark) : Cell × Bool :=
  let next := nextOutcomeOf cell.outcome seq
  let update : Cell := { cell with pitchSeq := seq }
  let update : Cell :=
    match next with
    | some o =>
      if o = Outcome.hbp ∨ o = Outcome.walk then
        let later := cell.runs.filter (fun seg => decide (0 < seg.fromB))
        let opening := firstRunForOutcome o batterNumber
        let newBases := match opening with
          | op :: _ => op.toB
          | [] => update.bases
        { update with outcome := o, runs := opening ++ later, bases := newBases }
      else if o = Outcome.k then { update with outcome := Outcome.k }
      else update
    | none => update
  (update, decide (next = some Outcome.k))

/-- The spec invariant: `bases` equals the `to` of the last segment, or 0 if the path is empty. -/
def basesInv (cell : Cell) : Prop := cell.bases = lastTo cell.runs

instance (cell : Cell) : Decidable (basesInv cell) :=
  inferInstanceAs (Decidable (cell.bases = lastTo cell.runs))

/-- The spec invariant: consecutive segments connect, `runs[i-1].to = runs[i].from`. -/
def chained : List RunSeg → Bool
  | [] => true
  | [_] => true
  | a :: b :: rest => a.toB == b.fromB && chained (b :: rest)

/-- Claim C1, counterexample cell: outcome Walk with its 0→1 award segment,
`bases = 1`, invariant holding. -/
def c1cell : Cell :=
  { pitchSeq := [], outcome := Outcome.walk, bases := 1, outs := 0,
    pathColor := PathColor.black, notes := "",
    runs := [⟨0, 1, RunKind.award, some 1, none, some AwardType.walkA⟩] }

/-- Claim C5, counterexample cell: a connected two-segment path 0→2 (hit), 2→3 (advance). -/
def c5cell : Cell :=
  { pitchSeq := [], outcome := Outcome.twoB, bases := 3, outs := 0,
    pathColor := PathColor.black, notes := "",
    runs := [⟨0, 2, RunKind.hit, some 1, none, none⟩,
             ⟨2, 3, RunKind.advance, some 2, none, none⟩] }

/-- The candidate auto-outcome computed the way the claim words it: a candidate found
with strike-first precedence alone, then applied only if it differs from the current
outcome.  Stated for comparison against `nextOutcomeOf`, the code's fused version. -/
def autoOutcomeClaim (cur : Outcome) (seq : List PitchMark) : Option Outcome :=
  let candidate : Option Outcome :=
    if 3 ≤ countStrikes seq then some Outcome.k
    else if hasDeadBall seq = true then some Outcome.hbp
    else if 4 ≤ countBalls seq then some Outcome.walk
    else none
  match candidate with
  | some o => if o = cur then none else some o
  | none => none

/-- Claim C2 counterexample cell: a cell already marked K. -/
def c2cell : Cell :=
  { pitchSeq := [PitchMark.CS, PitchMark.CS, PitchMark.CS], outcome := Outcome.k,
    bases := 0, outs := 0, pathColor := PathColor.black, notes := "", runs := [] }

/-- A grid: rows = batting order, columns = the 9 innings. -/
abbrev Grid := List (List Cell)

/-- Write one cell of the grid (`next[r][c] = updated`). -/
def setCell (g : Grid) (r c : Nat) (cell : Cell) : Grid :=
  match g.get? r with
  | some row => g.set r (row.set c cell)
  | none => g

/-- Read `grid[r]?.[c]`, defaulted to the empty cell. -/
def cellAt (g : Grid) (r c : Nat) : Cell :=
  (g.getD r []).getD c emptyCell

/-- `grid[r]?.[c]?.outs ?? 0`. -/
def outsAt (g : Grid) (r c : Nat) : Nat := (cellAt g r c).outs

/-- `recordOut(inningIdx, batterIdx)`: bump the inning's cumulative count (capped at 3)
and stamp the cell's `outs` with the new cumulative value. -/
def recordOut (g : Grid) (io : List Nat) (inningIdx batterIdx : Nat) : Grid × List Nat :=
  let newCount := min 3 (io.getD inningIdx 0 + 1)
  let io' := io.set inningIdx newCount
  let cell := cellAt g batterIdx inningIdx
  (setCell g batterIdx inningIdx { cell with outs := newCount }, io')

/-- `outsUpTo(c, r)`: scan rows 0..r in column c, keeping the last nonzero `outs`. -/
def outsUpTo (g : Grid) (c r : Nat) : Nat :=
  (List.range (r + 1)).foldl
    (fun last i => if 0 < outsAt g i c then outsAt g i c else last) 0

/-- The claim's reading rule: the `outs` of the last row ≤ r with a nonzero value, else 0. -/
def lastNonzeroOuts (g : Grid) (c r : Nat) : Nat :=
  ((((List.range (r + 1)).map (fun i => outsAt g i c)).reverse.find?
    (fun o => decide (0 < o))).getD 0)

/-- `recomputeInningOuts(c, g)`: running maximum of the column's `outs`. -/
def recomputeInningOuts (c : Nat) (g : Grid) : Nat :=
  (List.range g.length).foldl
    (fun maxOuts r => if maxOuts < outsAt g r c then outsAt g r c else maxOuts) 0

/-- The maximum `outs` value found anywhere in column c, as the claim words it. -/
def colMaxOuts (g : Grid) (c : Nat) : Nat :=
  ((List.range g.length).map (fun r => outsAt g r c)).foldr max 0

/-- Zero the `outs` of one row's cell in column c, if present. -/
def zeroOutsRow (row : List Cell) (c : Nat) : List Cell :=
  match row.get? c with
  | some cell => row.set c { cell with outs := 0 }
  | none => row

/-- The loop of `resetOutsFromHereDown`: zero column c's `outs` for rows ≥ startRow. -/
def zeroOutsFromAux (c startRow : Nat) : Nat → Grid → Grid
  | _, [] => []
  | r, row :: rest =>
    (if startRow ≤ r then zeroOutsRow row c else row) :: zeroOutsFromAux c startRow (r + 1) rest

/-- Zero `outs` in column c for all rows ≥ startRow. -/
def zeroOutsFrom (g : Grid) (c startRow : Nat) : Grid :=
  zeroOutsFromAux c startRow 0 g

/-- `resetOutsFromHereDown(c, startRow)`: zero the tail of the column, then recompute
the inning's count as the column maximum. -/
def resetOutsFromHereDown (g : Grid) (io : List Nat) (c startRow : Nat) : Grid × List Nat :=
  let g' := zeroOutsFrom g c startRow
  (g', io.set c (recomputeInningOuts c g'))

/-- The full pitch-edit event at (row r, inning c): commit the cell produced by the
handler first, then record the out (only on a K transition) against the updated grid. -/
def pitchEvent (g : Grid) (io : List Nat) (r c batterNumber : Nat)
    (seq : List PitchMark) : Grid × List Nat :=
  let res := pitchOnChange (cellAt g r c) batterNumber seq
  let g1 := setCell g r c res.1
  if res.2 then recordOut g1 io c r else (g1, io)

/-- One cell's scoring segments credited to `batterNo`
(`seg.to === 4 && seg.byBatter === batterNo`). -/
def segRBICount (batterNo : Nat) (segs : List RunSeg) : Nat :=
  segs.countP (fun seg => decide (seg.toB = 4 ∧ seg.byBatter = some batterNo))

/-- `grid[rr]?.[c]?.runs ?? []`. -/
def runsAt (g : Grid) (r c : Nat) : List RunSeg := (cellAt g r c).runs

/-- The RBI entry of `playerStats` for row r (batting-order number r+1): the loop over
the 9 inning columns with, inside each, a loop over every row of the batting order. -/
def rbiFor (g : Grid) (numPlayers r : Nat) : Nat :=
  ∑ c ∈ Finset.range 9, ∑ rr ∈ Finset.range numPlayers,
    segRBICount (r + 1) (runsAt g rr c)

/-- The claim's description: every scoring segment in every cell of the entire grid
tagged `byBatter = n`. -/
def gridRBI (g : Grid) (n : Nat) : Nat :=
  (g.map (fun row => (row.map (fun cell => segRBICount n cell.runs)).sum)).sum

/-- Claim C9 witness grid: one batter, 9 innings, a 3→4 segment in inning 0 tagged
`byBatter = 1` plus an untagged one in inning 1. -/
def c9grid : Grid :=
  [[{ emptyCell with runs := [⟨3, 4, RunKind.advance, some 1, none, none⟩] },
    { emptyCell with runs := [⟨3, 4, RunKind.advance, some 2, none, none⟩] },
    emptyCell, emptyCell, emptyCell, emptyCell, emptyCell, emptyCell, emptyCell]]

/-- A JSON-ish runtime value: what a loaded, untrusted cell may hold.  `jnull` stands
for both JavaScript `null` and `undefined`, which behave identically in every check
the normalizers perform (`??`, `Array.isArray`, `typeof`, strict equality). -/
inductive JVal where
  | jnull
  | jbool (b : Bool)
  | jnum (n : Int)
  | jstr (s : String)
  | jarr (xs : List JVal)
  | jobj (fields : List (String × JVal))

/-- Property access `c?.key`. -/
def getField : JVal → String → JVal
  | JVal.jobj fields, k =>
    match fields.find? (fun p => p.1 == k) with
    | some p => p.2
    | none => JVal.jnull
  | _, _ => JVal.jnull

/-- The output shape of `normalizeCell`: the TS annotation promises `Required<Cell>`,
but unchecked casts let wrong-shape values flow through, so the embedded output keeps
the untrusted positions as `JVal`. -/
structure NCell where
  pitchSeq : List JVal
  outcome : JVal
  bases : Int
  outs : Int
  pathColor : PathColor
  notes : String
  runs : List JVal

/-- `normalizeCell(c)`: `pitchSeq`/`runs` must be arrays (elements unchecked),
`bases`/`outs` must be numbers (range unchecked), `notes` must be a string,
`pathColor` must be exactly 'red' to stay red; `outcome` is only null-defaulted
(`(c?.outcome as Outcome) ?? '—'` keeps any non-nullish value). -/
def normalizeCell (c : JVal) : NCell :=
  let pitchSeq := match getField c "pitchSeq" with
    | JVal.jarr xs => xs
    | _ => []
  let outcome := match getField c "outcome" with
    | JVal.jnull => JVal.jstr "—"
    | v => v
  let bases : Int := match getField c "bases" with
    | JVal.jnum n => n
    | _ => 0
  let outs : Int := match getField c "outs" with
    | JVal.jnum n => n
    | _ => 0
  let pathColor := match getField c "pathColor" with
    | JVal.jstr s => if s = "red" then PathColor.red else PathColor.black
    | _ => PathColor.black
  let notes := match getField c "notes" with
    | JVal.jstr s => s
    | _ => ""
  let runs := match getField c "runs" with
    | JVal.jarr xs => xs
    | _ => []
  ⟨pitchSeq, outcome, bases, outs, pathColor, notes, runs⟩

/-- `normalizeGrid(g, rows)`: exactly `rows` rows of exactly 9 normalized cells,
missing rows/cells treated as absent. -/
def normalizeGrid (g : JVal) (rows : Nat) : List (List NCell) :=
  let grid : List JVal := match g with
    | JVal.jarr xs => xs
    | _ => []
  (List.range rows).map (fun r =>
    let row : List JVal := match grid.getD r JVal.jnull with
      | JVal.jarr xs => xs
      | _ => []
    (List.range 9).map (fun c => normalizeCell (row.getD c JVal.jnull)))

/-- A well-formed stored outcome: one of the ten Outcome strings. -/
def validOutcomeJ : JVal → Bool
  | JVal.jstr s =>
    decide (s = "—" ∨ s = "In Play" ∨ s = "Walk" ∨ s = "HBP" ∨ s = "K"
      ∨ s = "1B" ∨ s = "2B" ∨ s = "3B" ∨ s = "HR" ∨ s = "Out")
  | _ => false

/-- The all-defaults cell `normalizeCell` produces from absent data. -/
def defaultNCell : NCell := ⟨[], JVal.jstr "—", 0, 0, PathColor.black, "", []⟩

/-- Claim C10 counterexample input: a 1×1 grid whose only cell stores the number 42
under `outcome`. -/
def c10input : JVal := JVal.jarr [JVal.jarr [JVal.jobj [("outcome", JVal.jnum 42)]]]

/-! ## Theorems -/

lemma countStrikesAux_le (seq : List PitchMark) :
    ∀ s, s ≤ 3 → countStrikesAux s seq ≤ 3 := by
  induction seq with
  | nil => intro s hs; simpa [countStrikesAux] using hs
  | cons m rest ih =>
    intro s hs
    simp only [countStrikesAux]
    split
    · exact le_refl 3
    · exact ih _ (by omega)

lemma countStrikesAux_saturated (m : PitchMark) : countStrikesAux 3 [m] = 3 := by
  cases m <;> rfl

lemma countStrikesAux_append (seq : List PitchMark) (m : PitchMark) :
    ∀ s, countStrikesAux s (seq ++ [m]) = countStrikesAux (countStrikesAux s seq) [m] := by
  induction seq with
  | nil => intro s; rfl
  | cons a rest ih =>
    intro s
    simp only [List.cons_append, countStrikesAux]
    split
    · exact (countStrikesAux_saturated m).symm
    · exact ih _

lemma countStrikesAux_one_table (t : Nat) (h : t ≤ 3) :
    countStrikesAux t [PitchMark.F] = (if t < 2 then t + 1 else t)
    ∧ countStrikesAux t [PitchMark.CS] = min 3 (t + 1)
    ∧ countStrikesAux t [PitchMark.SS] = min 3 (t + 1)
    ∧ countStrikesAux t [PitchMark.B] = t
    ∧ countStrikesAux t [PitchMark.D] = t := by
  interval_cases t <;> decide

/-- Claim C6: `countStrikes` increments on CS/SS, increments on Foul only below 2,
saturates at 3; it never exceeds 3, appending a Foul when the count is already 2
leaves the count unchanged, and Ball/Dead marks never change the strike count. -/
theorem c6_strike_count (seq : List PitchMark) :
    countStrikes seq ≤ 3
    ∧ countStrikes (seq ++ [PitchMark.F]) =
        (if countStrikes seq < 2 then countStrikes seq + 1 else countStrikes seq)
    ∧ countStrikes (seq ++ [PitchMark.CS]) = min 3 (countStrikes seq + 1)
    ∧ countStrikes (seq ++ [PitchMark.SS]) = min 3 (countStrikes seq + 1)
    ∧ countStrikes (seq ++ [PitchMark.B]) = countStrikes seq
    ∧ countStrikes (seq ++ [PitchMark.D]) = countStrikes seq := by
  have hle : countStrikes seq ≤ 3 := countStrikesAux_le seq 0 (by omega)
  have happ : ∀ m, countStrikes (seq ++ [m]) = countStrikesAux (countStrikes seq) [m] :=
    fun m => countStrikesAux_append seq m 0
  obtain ⟨hF, hCS, hSS, hB, hD⟩ := countStrikesAux_one_table (countStrikes seq) hle
  exact ⟨hle, by rw [happ, hF], by rw [happ, hCS], by rw [happ, hSS],
    by rw [happ, hB], by rw [happ, hD]⟩

lemma lastTo_concat (l : List RunSeg) (x : RunSeg) : lastTo (l ++ [x]) = x.toB := by
  simp [lastTo, List.getLast?_concat]

lemma lastTo_cons_cons (a b : RunSeg) (l : List RunSeg) :
    lastTo (a :: b :: l) = lastTo (b :: l) := by
  simp [lastTo, List.getLast?_cons_cons]

lemma dropLast_concat_of_getLast? (l : List RunSeg) (x : RunSeg)
    (h : l.getLast? = some x) : l.dropLast ++ [x] = l := by
  induction l with
  | nil => simp at h
  | cons a rest ih =>
    cases rest with
    | nil =>
      simp at h
      subst h
      rfl
    | cons b rest2 =>
      rw [List.getLast?_cons_cons] at h
      show a :: (List.dropLast (b :: rest2) ++ [x]) = a :: (b :: rest2)
      rw [ih h]

lemma chained_concat (l : List RunSeg) (x : RunSeg) :
    chained (l ++ [x]) = (chained l && (l.isEmpty || lastTo l == x.fromB)) := by
  induction l with
  | nil => simp [chained]
  | cons a rest ih =>
    cases rest with
    | nil => simp [chained, lastTo]
    | cons b rest2 =>
      show (a.toB == b.fromB && chained ((b :: rest2) ++ [x])) = _
      rw [ih]
      simp [chained, lastTo_cons_cons, Bool.and_assoc]

lemma tryExtendRun_some {cell : Cell} {kind : RunKind} {lastClick : Option ClickState}
    {now fromB : Nat} {c' : Cell}
    (h : tryExtendRun cell kind lastClick now fromB = some c') :
    ∃ last, cell.runs.getLast? = some last ∧
      c'.runs = cell.runs.dropLast ++ [{ last with toB := min 4 (last.toB + 1) }] ∧
      c'.bases = min 4 (last.toB + 1) := by
  rcases lastClick with _ | lc
  · simp [tryExtendRun] at h
  · rcases hg : cell.runs.getLast? with _ | last
    · simp [tryExtendRun, hg] at h
    · simp only [tryExtendRun, hg, Option.ite_none_right_eq_some, Option.some.injEq] at h
      obtain ⟨hc, heq⟩ := h
      refine ⟨last, rfl, ?_, ?_⟩ <;> rw [← heq]

lemma basesInv_tryExtendRun {cell : Cell} {kind : RunKind} {lastClick : Option ClickState}
    {now fromB : Nat} {c' : Cell}
    (h : tryExtendRun cell kind lastClick now fromB = some c') : basesInv c' := by
  obtain ⟨last, _, hruns, hbases⟩ := tryExtendRun_some h
  rw [basesInv, hruns, hbases, lastTo_concat]

lemma basesInv_addRunSegment (cell : Cell) (kind : RunKind) (meta : RunMeta)
    (lastClick : Option ClickState) (now : Nat) :
    basesInv (addRunSegment cell kind meta lastClick now).1 := by
  simp only [addRunSegment]
  rcases hx : tryExtendRun cell kind lastClick now
      (if lastTo cell.runs ≤ 3 then lastTo cell.runs else 3) with _ | c'
  · simp only [basesInv, lastTo_concat]
    split <;> split <;> rfl
  · exact basesInv_tryExtendRun hx

lemma nextOutcomeOf_cases (cur : Outcome) (seq : List PitchMark) :
    nextOutcomeOf cur seq = none ∨ nextOutcomeOf cur seq = some Outcome.k
    ∨ nextOutcomeOf cur seq = some Outcome.hbp
    ∨ nextOutcomeOf cur seq = some Outcome.walk := by
  unfold nextOutcomeOf
  split_ifs <;> simp

/-- Claim C1 is false as stated: selecting outcome '—' on a cell whose path is a single
0→1 award segment empties the runs list but keeps `bases = 1` (the code falls back to
the previous `bases` when the opening is empty), so `bases` no longer equals the last
segment's `to`-or-0. -/
theorem c1_counterexample :
    basesInv c1cell
    ∧ (onOutcomeChange c1cell Outcome.dash 1).runs = []
    ∧ (onOutcomeChange c1cell Outcome.dash 1).bases = 1
    ∧ ¬ basesInv (onOutcomeChange c1cell Outcome.dash 1) := by decide

/-- Claim C1, amended: `bases` equals the last segment's `to` (or 0) after every
`addRunSegment` and after a path reset, unconditionally; after a pitch-sequence update
it is preserved provided it held before and no segment with `from > 0` is present; and
`onOutcomeChange` re-establishes it whenever the chosen outcome produces a non-empty
opening segment and no `from > 0` segments are present.  (In the remaining
`onOutcomeChange` / Walk-HBP-sync cases the code can leave `bases` stale, as the
counterexample shows.) -/
theorem c1_bases_invariant_amended (cell : Cell) (kind : RunKind) (meta : RunMeta)
    (lastClick : Option ClickState) (now batterNumber : Nat) (o : Outcome)
    (seq : List PitchMark) :
    basesInv (addRunSegment cell kind meta lastClick now).1
    ∧ basesInv (resetRuns cell)
    ∧ (basesInv cell → cell.runs.filter (fun seg => decide (0 < seg.fromB)) = [] →
        basesInv (pitchOnChange cell batterNumber seq).1)
    ∧ (firstRunForOutcome o batterNumber ≠ [] →
        cell.runs.filter (fun seg => decide (0 < seg.fromB)) = [] →
        basesInv (onOutcomeChange cell o batterNumber)) := by
  refine ⟨basesInv_addRunSegment cell kind meta lastClick now, ?_, ?_, ?_⟩
  · simp [basesInv, resetRuns, lastTo]
  · intro hinv hfil
    rcases nextOutcomeOf_cases cell.outcome seq with h | h | h | h
    · simp only [pitchOnChange, h]
      simpa [basesInv] using hinv
    · simp only [pitchOnChange, h]
      simpa [basesInv] using hinv
    · simp only [pitchOnChange, h]
      simp [basesInv, lastTo, firstRunForOutcome, hfil]
    · simp only [pitchOnChange, h]
      simp [basesInv, lastTo, firstRunForOutcome, hfil]
  · intro hne hfil
    cases o <;>
      first
      | exact absurd rfl hne
      | simp [onOutcomeChange, firstRunForOutcome, hfil, basesInv, lastTo]

/-- Claim C5 is false as stated: selecting outcome Walk on a connected path
0→2, 2→3 replaces the leading segment with the 0→1 award opening while keeping the
2→3 continuation, producing the disconnected list [0→1, 2→3]. -/
theorem c5_counterexample :
    chained c5cell.runs = true
    ∧ (onOutcomeChange c5cell Outcome.walk 1).runs =
        [⟨0, 1, RunKind.award, some 1, none, some AwardType.walkA⟩,
         ⟨2, 3, RunKind.advance, some 2, none, none⟩]
    ∧ chained (onOutcomeChange c5cell Outcome.walk 1).runs = false := by decide

lemma chained_tryExtendRun {cell : Cell} {kind : RunKind} {lastClick : Option ClickState}
    {now fromB : Nat} {c' : Cell} (hch : chained cell.runs = true)
    (h : tryExtendRun cell kind lastClick now fromB = some c') :
    chained c'.runs = true := by
  obtain ⟨last, hg, hruns, _⟩ := tryExtendRun_some h
  have hsplit : cell.runs.dropLast ++ [last] = cell.runs :=
    dropLast_concat_of_getLast? _ _ hg
  rw [← hsplit, chained_concat, Bool.and_eq_true] at hch
  rw [hruns, chained_concat]
  obtain ⟨h1, h2⟩ := hch
  rw [h1]
  simpa using h2

lemma chained_short (l : List RunSeg) (h : l.length ≤ 1) : chained l = true := by
  match l, h with
  | [], _ => rfl
  | [_], _ => rfl

/-- Claim C5, amended: the connectivity invariant is maintained by `addRunSegment`
provided the path's last segment ends at or below base 3 (a path already at 4 gets a
disconnected fresh 3→4 segment appended), trivially by a path reset, and by
`onOutcomeChange` and the pitch-driven Walk/HBP sync when the cell holds no
`from > 0` segments; the leading-segment replacement does not reconnect preserved
`from > 0` segments (counterexample above). -/
theorem c5_chained_amended (cell : Cell) (kind : RunKind) (meta : RunMeta)
    (lastClick : Option ClickState) (now batterNumber : Nat) (o : Outcome)
    (seq : List PitchMark) :
    (chained cell.runs = true → lastTo cell.runs ≤ 3 →
        chained (addRunSegment cell kind meta lastClick now).1.runs = true)
    ∧ chained (resetRuns cell).runs = true
    ∧ (cell.runs.filter (fun seg => decide (0 < seg.fromB)) = [] →
        chained (onOutcomeChange cell o batterNumber).runs = true)
    ∧ (chained cell.runs = true →
        cell.runs.filter (fun seg => decide (0 < seg.fromB)) = [] →
        chained (pitchOnChange cell batterNumber seq).1.runs = true) := by
  refine ⟨?_, rfl, ?_, ?_⟩
  · intro hch hlast
    simp only [addRunSegment]
    rcases hx : tryExtendRun cell kind lastClick now
        (if lastTo cell.runs ≤ 3 then lastTo cell.runs else 3) with _ | c'
    · show chained (cell.runs ++ [_]) = true
      rw [chained_concat]
      rw [hch]
      have hfrom : (if lastTo cell.runs ≤ 3 then lastTo cell.runs else 3) =
          lastTo cell.runs := if_pos hlast
      split <;> simp [hfrom]
    · exact chained_tryExtendRun hch hx
  · intro hfil
    cases o <;>
      simp [onOutcomeChange, firstRunForOutcome, hfil, chained]
  · intro hch hfil
    rcases nextOutcomeOf_cases cell.outcome seq with h | h | h | h
    · simp only [pitchOnChange, h]
      exact hch
    · simp only [pitchOnChange, h]
      simpa using hch
    · simp only [pitchOnChange, h]
      simp [firstRunForOutcome, chained, hfil]
    · simp only [pitchOnChange, h]
      simp [firstRunForOutcome, chained, hfil]

/-- Claim C2 is false as stated: the code couples every trigger with its own
"differs from the current outcome" check inside the branch condition, so on a cell
already marked K the sequence [CS,CS,CS,D] (three strikes with a Dead mark present)
falls through the strike branch and sets the outcome to HBP, while the claimed
precedence (candidate K first, applied only if different) would leave it K. -/
theorem c2_counterexample :
    3 ≤ countStrikes [PitchMark.CS, PitchMark.CS, PitchMark.CS, PitchMark.D]
    ∧ autoOutcomeClaim Outcome.k [PitchMark.CS, PitchMark.CS, PitchMark.CS, PitchMark.D] = none
    ∧ (pitchOnChange c2cell 1 [PitchMark.CS, PitchMark.CS, PitchMark.CS, PitchMark.D]).1.outcome
        = Outcome.hbp
    ∧ Outcome.hbp ≠ Outcome.k := by decide

/-- Claim C2, amended: the handler's outcome always equals the fused candidate
`nextOutcomeOf` (each branch requiring both its trigger and a difference from the
current outcome) with the current outcome as fallback; three strikes yield K exactly
when the cell is not already K; on a cell already K a Dead mark yields HBP instead;
and with no trigger firing the outcome is left unchanged. -/
theorem c2_auto_outcome_amended (cell : Cell) (batterNumber : Nat) (seq : List PitchMark) :
    (pitchOnChange cell batterNumber seq).1.outcome =
      (nextOutcomeOf cell.outcome seq).getD cell.outcome
    ∧ (3 ≤ countStrikes seq → cell.outcome ≠ Outcome.k →
        (pitchOnChange cell batterNumber seq).1.outcome = Outcome.k)
    ∧ (3 ≤ countStrikes seq → cell.outcome = Outcome.k → hasDeadBall seq = true →
        (pitchOnChange cell batterNumber seq).1.outcome = Outcome.hbp)
    ∧ (countStrikes seq < 3 → hasDeadBall seq = false → countBalls seq < 4 →
        (pitchOnChange cell batterNumber seq).1.outcome = cell.outcome) := by
  have h1 : (pitchOnChange cell batterNumber seq).1.outcome =
      (nextOutcomeOf cell.outcome seq).getD cell.outcome := by
    rcases nextOutcomeOf_cases cell.outcome seq with h | h | h | h <;>
      simp [pitchOnChange, h]
  refine ⟨h1, ?_, ?_, ?_⟩
  · intro hs hne
    have hn : nextOutcomeOf cell.outcome seq = some Outcome.k := by
      unfold nextOutcomeOf
      rw [if_pos ⟨hs, hne⟩]
    rw [h1, hn]
    rfl
  · intro hs hk hd
    have hn : nextOutcomeOf cell.outcome seq = some Outcome.hbp := by
      unfold nextOutcomeOf
      rw [if_neg (fun hc => hc.2 hk), if_pos ⟨hd, by rw [hk]; exact fun hc => nomatch hc⟩]
    rw [h1, hn]
    rfl
  · intro h3 hd hb
    have hn : nextOutcomeOf cell.outcome seq = none := by
      unfold nextOutcomeOf
      rw [if_neg (fun hc => absurd hc.1 (by omega)),
        if_neg (fun hc => by rw [hd] at hc; exact nomatch hc.1),
        if_neg (fun hc => absurd hc.1 (by omega))]
    rw [h1, hn]
    rfl

/-- Claim C3: when a pitch update or a manual selection makes the outcome Walk or HBP,
the leading segment is replaced by a single 0→1 Award segment carrying the award type
and the batter's order number, the `from > 0` segments are kept unchanged, and `bases`
becomes 1; the pitch sequence [B,B,B,B] on an empty cell yields exactly outcome Walk,
a single 0→1 Walk award segment, and `bases = 1`. -/
theorem c3_walk_hbp_opening (cell : Cell) (batterNumber : Nat) (seq : List PitchMark)
    (o : Outcome) :
    firstRunForOutcome Outcome.walk batterNumber =
        [⟨0, 1, RunKind.award, some batterNumber, none, some AwardType.walkA⟩]
    ∧ firstRunForOutcome Outcome.hbp batterNumber =
        [⟨0, 1, RunKind.award, some batterNumber, none, some AwardType.hbpA⟩]
    ∧ (o = Outcome.walk ∨ o = Outcome.hbp →
        (onOutcomeChange cell o batterNumber).runs =
          firstRunForOutcome o batterNumber ++
            cell.runs.filter (fun seg => decide (0 < seg.fromB))
        ∧ (onOutcomeChange cell o batterNumber).bases = 1)
    ∧ (nextOutcomeOf cell.outcome seq = some Outcome.walk
        ∨ nextOutcomeOf cell.outcome seq = some Outcome.hbp →
        (pitchOnChange cell batterNumber seq).1.runs =
          firstRunForOutcome ((nextOutcomeOf cell.outcome seq).getD Outcome.walk)
              batterNumber ++
            cell.runs.filter (fun seg => decide (0 < seg.fromB))
        ∧ (pitchOnChange cell batterNumber seq).1.bases = 1)
    ∧ (pitchOnChange emptyCell batterNumber
          [PitchMark.B, PitchMark.B, PitchMark.B, PitchMark.B]).1 =
        { emptyCell with
          pitchSeq := [PitchMark.B, PitchMark.B, PitchMark.B, PitchMark.B],
          outcome := Outcome.walk, bases := 1,
          runs := [⟨0, 1, RunKind.award, some batterNumber, none, some AwardType.walkA⟩] } := by
  refine ⟨rfl, rfl, ?_, ?_, ?_⟩
  · rintro (h | h) <;> subst h <;> exact ⟨rfl, rfl⟩
  · rintro (h | h) <;> rw [h] <;>
      exact ⟨by simp [pitchOnChange, h, firstRunForOutcome],
        by simp [pitchOnChange, h, firstRunForOutcome]⟩
  · rfl

lemma getD_set_self {α : Type _} (l : List α) (i : Nat) (a d : α) (h : i < l.length) :
    (l.set i a).getD i d = a := by
  simp [List.getD_eq_getElem?_getD, List.getElem?_set_self h]

lemma getD_set_ne {α : Type _} (l : List α) (i j : Nat) (a d : α) (h : i ≠ j) :
    (l.set i a).getD j d = l.getD j d := by
  simp [List.getD_eq_getElem?_getD, List.getElem?_set_ne h]

lemma get?_eq_some_getD {α : Type _} (l : List α) (r : Nat) (d : α) (h : r < l.length) :
    l.get? r = some (l.getD r d) := by
  rw [List.getD_eq_getElem?_getD, List.get?_eq_getElem?, List.getElem?_eq_getElem h]
  rfl

lemma getD_eq_of_get? {α : Type _} {l : List α} {r : Nat} {x d : α}
    (h : l.get? r = some x) : l.getD r d = x := by
  rw [List.getD_eq_getElem?_getD, ← List.get?_eq_getElem?, h]
  rfl

lemma getD_eq_of_get?_none {α : Type _} {l : List α} {r : Nat} {d : α}
    (h : l.get? r = none) : l.getD r d = d := by
  rw [List.getD_eq_getElem?_getD, ← List.get?_eq_getElem?, h]
  rfl

lemma cellAt_setCell_self (g : Grid) (r c : Nat) (cell : Cell)
    (hr : r < g.length) (hc : c < (g.getD r []).length) :
    cellAt (setCell g r c cell) r c = cell := by
  unfold setCell cellAt
  rw [get?_eq_some_getD g r [] hr]
  rw [getD_set_self _ _ _ _ (by simpa using hr)]
  rw [getD_set_self _ _ _ _ hc]

lemma foldl_lastNonzero (l : List Nat) :
    ∀ a, l.foldl (fun last o => if 0 < o then o else last) a
      = (l.reverse.find? (fun o => decide (0 < o))).getD a := by
  induction l with
  | nil => intro a; rfl
  | cons x xs ih =>
    intro a
    rw [List.foldl_cons, ih, List.reverse_cons, List.find?_append]
    rcases h : xs.reverse.find? (fun o => decide (0 < o)) with _ | v
    · by_cases hx : 0 < x <;> simp [h, hx, List.find?]
    · simp [h]

lemma outsUpTo_eq_lastNonzeroOuts (g : Grid) (c r : Nat) :
    outsUpTo g c r = lastNonzeroOuts g c r := by
  unfold outsUpTo lastNonzeroOuts
  rw [← List.foldl_map (fun i => outsAt g i c)
    (fun last o => if 0 < o then o else last), foldl_lastNonzero]

lemma foldl_runningMax (l : List Nat) :
    ∀ a, l.foldl (fun mx o => if mx < o then o else mx) a = max a (l.foldr max 0) := by
  induction l with
  | nil => intro a; simp
  | cons x xs ih =>
    intro a
    rw [List.foldl_cons, ih, List.foldr_cons]
    split <;> omega

lemma recomputeInningOuts_eq_colMaxOuts (c : Nat) (g : Grid) :
    recomputeInningOuts c g = colMaxOuts g c := by
  unfold recomputeInningOuts colMaxOuts
  rw [← List.foldl_map (fun r => outsAt g r c)
    (fun mx o => if mx < o then o else mx), foldl_runningMax]
  simp

lemma zeroOutsFromAux_get? (c startRow : Nat) (g : Grid) :
    ∀ k r, (zeroOutsFromAux c startRow k g).get? r
      = (g.get? r).map (fun row => if startRow ≤ k + r then zeroOutsRow row c else row) := by
  induction g with
  | nil => intro k r; simp [zeroOutsFromAux]
  | cons row rest ih =>
    intro k r
    cases r with
    | zero => simp [zeroOutsFromAux]
    | succ r' =>
      show (zeroOutsFromAux c startRow (k + 1) rest).get? r' = _
      rw [ih (k + 1) r']
      simp only [List.get?_cons_succ]
      have : k + 1 + r' = k + (r' + 1) := by omega
      rw [this]

lemma outs_zeroOutsRow (row : List Cell) (c : Nat) :
    (((zeroOutsRow row c).getD c emptyCell)).outs = 0 := by
  unfold zeroOutsRow
  rcases hq : row.get? c with _ | cell
  · rw [getD_eq_of_get?_none hq]
    rfl
  · have hlen : c < row.length := by
      by_contra hcon
      rw [List.get?_eq_none.mpr (by omega)] at hq
      exact nomatch hq
    rw [getD_set_self _ _ _ _ hlen]

lemma outsAt_zeroOutsFrom (g : Grid) (c startRow r : Nat) (h : startRow ≤ r) :
    outsAt (zeroOutsFrom g c startRow) r c = 0 := by
  unfold outsAt cellAt zeroOutsFrom
  rcases hq : g.get? r with _ | row
  · have hn : (zeroOutsFromAux c startRow 0 g).get? r = none := by
      rw [zeroOutsFromAux_get? c startRow g 0 r, hq]
      rfl
    rw [getD_eq_of_get?_none hn]
    rfl
  · have hz : (zeroOutsFromAux c startRow 0 g).get? r = some (zeroOutsRow row c) := by
      rw [zeroOutsFromAux_get? c startRow g 0 r, hq]
      simp [Nat.zero_add, h]
    rw [getD_eq_of_get? hz]
    exact outs_zeroOutsRow row c

lemma length_setCell (g : Grid) (r c : Nat) (cell : Cell) :
    (setCell g r c cell).length = g.length := by
  unfold setCell
  rcases g.get? r with _ | row <;> simp

lemma getD_setCell_self (g : Grid) (r c : Nat) (cell : Cell) (hr : r < g.length) :
    (setCell g r c cell).getD r [] = (g.getD r []).set c cell := by
  unfold setCell
  rw [get?_eq_some_getD g r [] hr]
  exact getD_set_self _ _ _ _ (by simpa using hr)

lemma nextOutcomeOf_eq_k_iff (cur : Outcome) (seq : List PitchMark) :
    nextOutcomeOf cur seq = some Outcome.k ↔ 3 ≤ countStrikes seq ∧ cur ≠ Outcome.k := by
  unfold nextOutcomeOf
  split_ifs with hA hB hC <;> simp [hA]

lemma pitchOnChange_pitchSeq (cell : Cell) (batterNumber : Nat) (seq : List PitchMark) :
    (pitchOnChange cell batterNumber seq).1.pitchSeq = seq := by
  rcases nextOutcomeOf_cases cell.outcome seq with h | h | h | h <;>
    simp [pitchOnChange, h]

lemma pitchOnChange_outcome_k (cell : Cell) (batterNumber : Nat) (seq : List PitchMark)
    (h : nextOutcomeOf cell.outcome seq = some Outcome.k) :
    (pitchOnChange cell batterNumber seq).1.outcome = Outcome.k := by
  simp [pitchOnChange, h]

/-- Claim C7: `recordOut` at (row r', inning c) sets the inning's count to
min(3, previous + 1), stamps that cell's `outs` with this new cumulative value, and
for every row r ≥ r' the `outsUpTo` read returns the `outs` of the last row ≤ r in
column c with a nonzero value (0 if no such row exists). -/
theorem c7_record_out_and_read (g : Grid) (io : List Nat) (c r' : Nat)
    (hio : c < io.length) (hr : r' < g.length) (hc : c < (g.getD r' []).length) :
    (recordOut g io c r').2.getD c 0 = min 3 (io.getD c 0 + 1)
    ∧ outsAt (recordOut g io c r').1 r' c = min 3 (io.getD c 0 + 1)
    ∧ (∀ r, r' ≤ r → outsUpTo (recordOut g io c r').1 c r
        = lastNonzeroOuts (recordOut g io c r').1 c r) := by
  refine ⟨?_, ?_, fun r _ => outsUpTo_eq_lastNonzeroOuts _ c r⟩
  · exact getD_set_self io c _ 0 hio
  · simp only [outsAt, recordOut]
    rw [cellAt_setCell_self g r' c _ hr hc]

/-- Claim C7 witness: a concrete 2×1 grid, recording an out at row 0 of inning 0. -/
theorem c7_record_out_and_read_witness :
    (recordOut [[emptyCell], [emptyCell]] [0] 0 0).2.getD 0 0 = 1
    ∧ outsAt (recordOut [[emptyCell], [emptyCell]] [0] 0 0).1 0 0 = 1
    ∧ outsUpTo (recordOut [[emptyCell], [emptyCell]] [0] 0 0).1 0 1
        = lastNonzeroOuts (recordOut [[emptyCell], [emptyCell]] [0] 0 0).1 0 1 := by
  have h := c7_record_out_and_read [[emptyCell], [emptyCell]] [0] 0 0
    (by decide) (by decide) (by decide)
  exact ⟨h.1, h.2.1, h.2.2 1 (by decide)⟩

/-- Claim C8: `resetOutsFromHereDown` zeroes the `outs` of every cell in rows ≥
startRow of column c and sets the inning's count to the maximum `outs` remaining
anywhere in the column, hence never above that maximum. -/
theorem c8_partial_reset (g : Grid) (io : List Nat) (c startRow : Nat)
    (hio : c < io.length) :
    (∀ r, startRow ≤ r → outsAt (resetOutsFromHereDown g io c startRow).1 r c = 0)
    ∧ (resetOutsFromHereDown g io c startRow).2.getD c 0 =
        colMaxOuts (resetOutsFromHereDown g io c startRow).1 c
    ∧ (resetOutsFromHereDown g io c startRow).2.getD c 0 ≤
        colMaxOuts (resetOutsFromHereDown g io c startRow).1 c := by
  have h2 : (resetOutsFromHereDown g io c startRow).2.getD c 0 =
      colMaxOuts (resetOutsFromHereDown g io c startRow).1 c := by
    unfold resetOutsFromHereDown
    rw [getD_set_self io c _ 0 hio, recomputeInningOuts_eq_colMaxOuts]
  exact ⟨fun r h => outsAt_zeroOutsFrom g c startRow r h, h2, le_of_eq h2⟩

/-- Claim C8 witness: a 2×1 grid with outs 2 and 1 stamped, reset from row 1 down. -/
theorem c8_partial_reset_witness :
    outsAt (resetOutsFromHereDown [[{ emptyCell with outs := 2 }],
        [{ emptyCell with outs := 1 }]] [2] 0 1).1 1 0 = 0
    ∧ (resetOutsFromHereDown [[{ emptyCell with outs := 2 }],
        [{ emptyCell with outs := 1 }]] [2] 0 1).2.getD 0 0 =
      colMaxOuts (resetOutsFromHereDown [[{ emptyCell with outs := 2 }],
        [{ emptyCell with outs := 1 }]] [2] 0 1).1 0 := by
  have h := c8_partial_reset [[{ emptyCell with outs := 2 }],
    [{ emptyCell with outs := 1 }]] [2] 0 1 (by decide)
  exact ⟨h.1 1 (by decide), h.2.1⟩

/-- Claim C4: a pitch-sequence update whose derived outcome transitions the cell to
Strikeout (three strikes and not already K) records exactly one out for that cell —
the inning count becomes min(3, previous + 1) and is stamped on the cell — and the
stamped cell carries the already-committed update (new pitch sequence, outcome K);
an update that does not make this transition records no out. -/
theorem c4_strikeout_records_out (g : Grid) (io : List Nat) (r c batterNumber : Nat)
    (seq : List PitchMark) (hr : r < g.length) (hc : c < (g.getD r []).length)
    (hio : c < io.length) :
    (3 ≤ countStrikes seq ∧ (cellAt g r c).outcome ≠ Outcome.k →
      (pitchEvent g io r c batterNumber seq).2.getD c 0 = min 3 (io.getD c 0 + 1)
      ∧ (cellAt (pitchEvent g io r c batterNumber seq).1 r c).outs
          = min 3 (io.getD c 0 + 1)
      ∧ (cellAt (pitchEvent g io r c batterNumber seq).1 r c).pitchSeq = seq
      ∧ (cellAt (pitchEvent g io r c batterNumber seq).1 r c).outcome = Outcome.k)
    ∧ (¬(3 ≤ countStrikes seq ∧ (cellAt g r c).outcome ≠ Outcome.k) →
      (pitchEvent g io r c batterNumber seq).2 = io) := by
  constructor
  · intro htrans
    have hk : nextOutcomeOf (cellAt g r c).outcome seq = some Outcome.k :=
      (nextOutcomeOf_eq_k_iff _ _).mpr htrans
    have hflag : (pitchOnChange (cellAt g r c) batterNumber seq).2 = true := by
      show decide (nextOutcomeOf (cellAt g r c).outcome seq = some Outcome.k) = true
      rw [hk]
      rfl
    have hev : pitchEvent g io r c batterNumber seq =
        recordOut (setCell g r c (pitchOnChange (cellAt g r c) batterNumber seq).1)
          io c r := by
      simp [pitchEvent, hflag]
    have hr1 : r < (setCell g r c (pitchOnChange (cellAt g r c) batterNumber seq).1).length := by
      rw [length_setCell]
      exact hr
    have hc1 : c < ((setCell g r c
        (pitchOnChange (cellAt g r c) batterNumber seq).1).getD r []).length := by
      rw [getD_setCell_self g r c _ hr, List.length_set]
      exact hc
    have hcell1 : cellAt (setCell g r c
        (pitchOnChange (cellAt g r c) batterNumber seq).1) r c =
        (pitchOnChange (cellAt g r c) batterNumber seq).1 :=
      cellAt_setCell_self g r c _ hr hc
    have hstamp : cellAt (recordOut (setCell g r c
        (pitchOnChange (cellAt g r c) batterNumber seq).1) io c r).1 r c =
        { cellAt (setCell g r c (pitchOnChange (cellAt g r c) batterNumber seq).1) r c
          with outs := min 3 (io.getD c 0 + 1) } :=
      cellAt_setCell_self _ r c _ hr1 hc1
    rw [hev, hstamp, hcell1]
    refine ⟨getD_set_self io c _ 0 hio, rfl, ?_, ?_⟩
    · show (pitchOnChange (cellAt g r c) batterNumber seq).1.pitchSeq = seq
      exact pitchOnChange_pitchSeq _ _ _
    · show (pitchOnChange (cellAt g r c) batterNumber seq).1.outcome = Outcome.k
      exact pitchOnChange_outcome_k _ _ _ hk
  · intro hnot
    have hk : nextOutcomeOf (cellAt g r c).outcome seq ≠ some Outcome.k :=
      fun h => hnot ((nextOutcomeOf_eq_k_iff _ _).mp h)
    have hflag : (pitchOnChange (cellAt g r c) batterNumber seq).2 = false := by
      show decide (nextOutcomeOf (cellAt g r c).outcome seq = some Outcome.k) = false
      exact decide_eq_false hk
    simp [pitchEvent, hflag]

/-- Claim C4 witness: on a 1×1 grid, the sequence [CS,CS,CS] transitions the empty
cell to K and records one out, while [CS,CS] records none. -/
theorem c4_strikeout_records_out_witness :
    ((pitchEvent [[emptyCell]] [0] 0 0 1 [PitchMark.CS, PitchMark.CS, PitchMark.CS]).2.getD 0 0 = 1
      ∧ (cellAt (pitchEvent [[emptyCell]] [0] 0 0 1
          [PitchMark.CS, PitchMark.CS, PitchMark.CS]).1 0 0).outcome = Outcome.k)
    ∧ (pitchEvent [[emptyCell]] [0] 0 0 1 [PitchMark.CS, PitchMark.CS]).2 = [0] := by
  have h1 := c4_strikeout_records_out [[emptyCell]] [0] 0 0 1
    [PitchMark.CS, PitchMark.CS, PitchMark.CS] (by decide) (by decide) (by decide)
  have h2 := c4_strikeout_records_out [[emptyCell]] [0] 0 0 1
    [PitchMark.CS, PitchMark.CS] (by decide) (by decide) (by decide)
  exact ⟨⟨(h1.1 (by decide)).1, (h1.1 (by decide)).2.2.2⟩, h2.2 (by decide)⟩

lemma map_sum_eq_range_sum {α : Type _} (l : List α) (f : α → Nat) (d : α) :
    (l.map f).sum = ∑ i ∈ Finset.range l.length, f (l.getD i d) := by
  induction l with
  | nil => simp
  | cons a rest ih =>
    rw [List.map_cons, List.sum_cons, ih, List.length_cons, Finset.sum_range_succ']
    simp [Nat.add_comm]

/-- Claim C9: the RBI statistic computed for batting-order number r+1 equals the
count of scoring (`to = 4`) segments tagged with that number over every cell of the
entire grid, innings and rows alike. -/
theorem c9_rbi_aggregation (g : Grid) (numPlayers r : Nat)
    (hlen : g.length = numPlayers) (hrow : ∀ row ∈ g, row.length = 9) :
    rbiFor g numPlayers r = gridRBI g (r + 1) := by
  unfold rbiFor gridRBI
  rw [Finset.sum_comm]
  rw [map_sum_eq_range_sum g
    (fun row => (row.map (fun cell => segRBICount (r + 1) cell.runs)).sum) [], hlen]
  apply Finset.sum_congr rfl
  intro rr hrr
  have hmem : g.getD rr [] ∈ g := by
    have hlt : rr < g.length := by
      rw [hlen]
      exact Finset.mem_range.mp hrr
    rw [List.getD_eq_getElem?_getD, List.getElem?_eq_getElem hlt]
    exact List.getElem_mem hlt
  rw [map_sum_eq_range_sum (g.getD rr []) _ emptyCell, hrow _ hmem]
  exact Finset.sum_congr rfl (fun c _ => rfl)

/-- Claim C9 witness. -/
theorem c9_rbi_aggregation_witness :
    rbiFor c9grid 1 0 = gridRBI c9grid 1 :=
  c9_rbi_aggregation c9grid 1 0 (by decide) (by decide)

/-- Claim C10 is false as stated: `outcome` is only nullish-defaulted, so the
wrong-shape value 42 flows through `normalizeCell` unreplaced — the resulting cell's
outcome is the number 42, not the default '—' nor any well-formed Outcome. -/
theorem c10_counterexample :
    ((normalizeGrid c10input 1).getD 0 []).getD 0 defaultNCell =
      { defaultNCell with outcome := JVal.jnum 42 }
    ∧ validOutcomeJ (JVal.jnum 42) = false
    ∧ JVal.jnum 42 ≠ JVal.jstr "—" := by
  refine ⟨rfl, rfl, fun h => JVal.noConfusion h⟩

/-- Claim C10, amended: for any input of any shape, `normalizeGrid` returns — without
any failure path — exactly the requested number of rows with 9 cells each; a wholly
absent cell normalizes to the all-defaults cell; an absent or null `outcome` field is
defaulted to '—'; but a non-nullish `outcome` of the wrong shape is passed through
unvalidated rather than replaced with the default. -/
theorem c10_normalize_amended (g : JVal) (rows : Nat) (c v : JVal) :
    (normalizeGrid g rows).length = rows
    ∧ (∀ row ∈ normalizeGrid g rows, row.length = 9)
    ∧ normalizeCell JVal.jnull = defaultNCell
    ∧ (getField c "outcome" = JVal.jnull → (normalizeCell c).outcome = JVal.jstr "—")
    ∧ (getField c "outcome" = v → v ≠ JVal.jnull → (normalizeCell c).outcome = v) := by
  refine ⟨?_, ?_, rfl, ?_, ?_⟩
  · simp [normalizeGrid]
  · intro row hrow
    simp only [normalizeGrid, List.mem_map] at hrow
    obtain ⟨r, _, hr⟩ := hrow
    rw [← hr]
    simp
  · intro h
    simp [normalizeCell, h]
  · intro hv hne
    cases v <;> first
      | exact absurd rfl hne
      | simp [normalizeCell, hv]

/-- Claim C10 witness: a null grid still yields 2 rows, and a stored string outcome
passes through. -/
theorem c10_normalize_amended_witness :
    (normalizeGrid JVal.jnull 2).length = 2
    ∧ (normalizeCell (JVal.jobj [("outcome", JVal.jstr "Walk")])).outcome
        = JVal.jstr "Walk" := by
  have h := c10_normalize_amended JVal.jnull 2
    (JVal.jobj [("outcome", JVal.jstr "Walk")]) (JVal.jstr "Walk")
  exact ⟨h.1, h.2.2.2.2 rfl (fun hx => JVal.noConfusion hx)⟩

/-- Claim C1 witness: the amended invariant at concrete inputs. -/
theorem c1_bases_invariant_amended_witness :
    basesInv (addRunSegment emptyCell RunKind.advance ⟨none, none⟩ none 0).1
    ∧ basesInv (pitchOnChange emptyCell 1 [PitchMark.CS]).1
    ∧ basesInv (onOutcomeChange emptyCell Outcome.walk 1) := by
  have h := c1_bases_invariant_amended emptyCell RunKind.advance ⟨none, none⟩ none 0 1
    Outcome.walk [PitchMark.CS]
  exact ⟨h.1, h.2.2.1 (by decide) rfl, h.2.2.2 (by decide) rfl⟩

/-- Claim C2 witness: the already-K divergence branch at a concrete input. -/
theorem c2_auto_outcome_amended_witness :
    3 ≤ countStrikes [PitchMark.CS, PitchMark.CS, PitchMark.CS, PitchMark.D]
    ∧ c2cell.outcome = Outcome.k
    ∧ hasDeadBall [PitchMark.CS, PitchMark.CS, PitchMark.CS, PitchMark.D] = true
    ∧ (pitchOnChange c2cell 1
        [PitchMark.CS, PitchMark.CS, PitchMark.CS, PitchMark.D]).1.outcome
        = Outcome.hbp := by
  refine ⟨by decide, rfl, rfl, ?_⟩
  exact (c2_auto_outcome_amended c2cell 1
    [PitchMark.CS, PitchMark.CS, PitchMark.CS, PitchMark.D]).2.2.1 (by decide) rfl rfl

/-- Claim C3 witness: manual Walk selection on the empty cell. -/
theorem c3_walk_hbp_opening_witness :
    (onOutcomeChange emptyCell Outcome.walk 2).runs =
      firstRunForOutcome Outcome.walk 2 ++
        emptyCell.runs.filter (fun seg => decide (0 < seg.fromB))
    ∧ (onOutcomeChange emptyCell Outcome.walk 2).bases = 1 :=
  (c3_walk_hbp_opening emptyCell 2 [] Outcome.walk).2.2.1 (Or.inl rfl)

/-- Claim C5 witness: the amended connectivity statement at concrete inputs. -/
theorem c5_chained_amended_witness :
    chained (addRunSegment emptyCell RunKind.advance ⟨none, none⟩ none 0).1.runs = true
    ∧ chained (onOutcomeChange emptyCell Outcome.hr 3).runs = true := by
  have h := c5_chained_amended emptyCell RunKind.advance ⟨none, none⟩ none 0 3
    Outcome.hr []
  exact ⟨h.1 rfl (by decide), h.2.2.1 rfl⟩

end Scorecard
